import Mathlib

/-!
# PolyGen runtime support library: a verified shallow embedding

This file embeds the PolyGen C++ runtime support layer
(`static/cpp/polygen_support.hpp`) in Lean 4 and proves the wire-format,
index-layer, row-store and pack-codec properties stated in the project's
specification.

Modelling conventions:

* A byte stream is a `List Nat` of byte values (each `< 256` when produced
  by the writer).  `BinaryReader` consumes bytes from the front of the
  list, mirroring the C++ `std::istream` cursor; a read past end-of-input
  throws, modelled as `Except WireError` with the single error
  `truncatedInput` (the C++ `std::runtime_error("Binary read error: ...")`).
* `BinaryWriter` primitives are pure byte-list producers (the C++ writer
  appends to an internal `std::ostringstream`); the buffering writer object
  itself, with its backing vector and `flush`, is modelled by `Writer`.
* `f32`/`f64` values are modelled by their IEEE-754 bit patterns
  (`Nat < 2^32` / `< 2^64`): the C++ code moves floats through `memcpy`
  to/from their bit patterns, so the codec acts on bit patterns only.
* C++ fixed-width integer casts are modelled by explicit two's-complement
  conversions (`toUnsigned8`/`toSigned8`, etc.).
-/

/-- The only error the wire codec can produce: a decode requested more
bytes than remain (C++ throws `runtime_error` in `check_read`). -/
inductive WireError where
  | truncatedInput
deriving DecidableEq, Repr

/-- Little-endian encoding of `v` into exactly `n` bytes (the C++
`stream_.write` of a fixed-width little-endian integer); higher bits of
`v` beyond `n` bytes are truncated, as the C++ fixed-width types do. -/
def encodeLE : Nat → Nat → List Nat
  | 0, _ => []
  | n + 1, v => v % 256 :: encodeLE n (v / 256)

/-- Little-endian recombination of a byte list (the C++ fixed-width read). -/
def decodeLE : List Nat → Nat
  | [] => 0
  | b :: bs => b + 256 * decodeLE bs

/-- `BinaryReader` state: the bytes not yet consumed. -/
abbrev ReaderData := List Nat

/-- Read `n` raw bytes: `stream_.read(buf, n)` followed by `check_read()`,
which throws when fewer than `n` bytes remain. -/
def read_uint (n : Nat) (data : ReaderData) : Except WireError (Nat × ReaderData) :=
  if n ≤ data.length then
    .ok (decodeLE (data.take n), data.drop n)
  else
    .error .truncatedInput

/-- `BinaryReader::read_u8`. -/
def read_u8 (data : ReaderData) : Except WireError (Nat × ReaderData) :=
  read_uint 1 data

/-- `BinaryReader::read_u16`. -/
def read_u16 (data : ReaderData) : Except WireError (Nat × ReaderData) :=
  read_uint 2 data

/-- `BinaryReader::read_u32`. -/
def read_u32 (data : ReaderData) : Except WireError (Nat × ReaderData) :=
  read_uint 4 data

/-- `BinaryReader::read_u64`. -/
def read_u64 (data : ReaderData) : Except WireError (Nat × ReaderData) :=
  read_uint 8 data

/-- Map a function over the value of a successful read. -/
def mapVal (f : α → β) :
    Except WireError (α × ReaderData) → Except WireError (β × ReaderData)
  | .error e => .error e
  | .ok (v, rest) => .ok (f v, rest)

/-- `static_cast<int8_t>` of a `uint8_t` (two's complement). -/
def toSigned8 (v : Nat) : Int := if v < 128 then (v : Int) else (v : Int) - 256

/-- `static_cast<int16_t>` of a `uint16_t`. -/
def toSigned16 (v : Nat) : Int := if v < 32768 then (v : Int) else (v : Int) - 65536

/-- `static_cast<int32_t>` of a `uint32_t`. -/
def toSigned32 (v : Nat) : Int :=
  if v < 2147483648 then (v : Int) else (v : Int) - 4294967296

/-- `static_cast<int64_t>` of a `uint64_t`. -/
def toSigned64 (v : Nat) : Int :=
  if v < 9223372036854775808 then (v : Int) else (v : Int) - 18446744073709551616

/-- `BinaryReader::read_i8`. -/
def read_i8 (data : ReaderData) : Except WireError (Int × ReaderData) :=
  mapVal toSigned8 (read_u8 data)

/-- `BinaryReader::read_i16`. -/
def read_i16 (data : ReaderData) : Except WireError (Int × ReaderData) :=
  mapVal toSigned16 (read_u16 data)

/-- `BinaryReader::read_i32`. -/
def read_i32 (data : ReaderData) : Except WireError (Int × ReaderData) :=
  mapVal toSigned32 (read_u32 data)

/-- `BinaryReader::read_i64`. -/
def read_i64 (data : ReaderData) : Except WireError (Int × ReaderData) :=
  mapVal toSigned64 (read_u64 data)

/-- `BinaryReader::read_f32`: floats are carried as their 32-bit IEEE-754
bit pattern (the C++ `memcpy` between `float` and `uint32_t`). -/
def read_f32 (data : ReaderData) : Except WireError (Nat × ReaderData) :=
  read_u32 data

/-- `BinaryReader::read_f64`. -/
def read_f64 (data : ReaderData) : Except WireError (Nat × ReaderData) :=
  read_u64 data

/-- `BinaryReader::read_bool`: `read_u8() != 0`. -/
def read_bool (data : ReaderData) : Except WireError (Bool × ReaderData) :=
  mapVal (fun v => decide (v ≠ 0)) (read_u8 data)

/-- `BinaryReader::read_string`: u32 length, then (when nonzero) exactly
that many raw bytes, with `check_read` after the payload read. -/
def read_string (data : ReaderData) :
    Except WireError (List Nat × ReaderData) :=
  match read_u32 data with
  | .error e => .error e
  | .ok (len, rest) =>
    if len = 0 then .ok ([], rest)
    else if len ≤ rest.length then .ok (rest.take len, rest.drop len)
    else .error .truncatedInput

/-- `BinaryReader::read_bytes`: u32 length + raw bytes (the zero-length
case performs no payload read, as in the source). -/
def read_bytes (data : ReaderData) :
    Except WireError (List Nat × ReaderData) :=
  match read_u32 data with
  | .error e => .error e
  | .ok (len, rest) =>
    if len = 0 then .ok ([], rest)
    else if len ≤ rest.length then .ok (rest.take len, rest.drop len)
    else .error .truncatedInput

/-- `BinaryReader::read_optional`: u8 flag; `0` means absent, any other
flag value proceeds to the caller-supplied element decode. -/
def read_optional (rf : ReaderData → Except WireError (α × ReaderData))
    (data : ReaderData) : Except WireError (Option α × ReaderData) :=
  match read_u8 data with
  | .error e => .error e
  | .ok (flag, rest) =>
    if flag = 0 then .ok (none, rest)
    else
      match rf rest with
      | .error e => .error e
      | .ok (v, rest2) => .ok (some v, rest2)

/-- `BinaryReader::read_optional_string`. -/
def read_optional_string (data : ReaderData) :
    Except WireError (Option (List Nat) × ReaderData) :=
  match read_u8 data with
  | .error e => .error e
  | .ok (flag, rest) =>
    if flag = 0 then .ok (none, rest)
    else
      match read_string rest with
      | .error e => .error e
      | .ok (v, rest2) => .ok (some v, rest2)

/-- The element loop of `BinaryReader::read_vector`. -/
def read_list (rf : ReaderData → Except WireError (α × ReaderData)) :
    Nat → ReaderData → Except WireError (List α × ReaderData)
  | 0, data => .ok ([], data)
  | n + 1, data =>
    match rf data with
    | .error e => .error e
    | .ok (x, rest) =>
      match read_list rf n rest with
      | .error e => .error e
      | .ok (xs, rest2) => .ok (x :: xs, rest2)

/-- `BinaryReader::read_vector`: u32 count + that many element decodes. -/
def read_vector (rf : ReaderData → Except WireError (α × ReaderData))
    (data : ReaderData) : Except WireError (List α × ReaderData) :=
  match read_u32 data with
  | .error e => .error e
  | .ok (count, rest) => read_list rf count rest

/-- `BinaryWriter::write_u8` (the bytes appended to the stream). -/
def write_u8 (v : Nat) : List Nat := encodeLE 1 v

/-- `BinaryWriter::write_u16`. -/
def write_u16 (v : Nat) : List Nat := encodeLE 2 v

/-- `BinaryWriter::write_u32`. -/
def write_u32 (v : Nat) : List Nat := encodeLE 4 v

/-- `BinaryWriter::write_u64`. -/
def write_u64 (v : Nat) : List Nat := encodeLE 8 v

/-- `static_cast<uint8_t>` of an `int8_t` value (two's complement). -/
def toUnsigned8 (v : Int) : Nat := (v % 256).toNat

/-- `static_cast<uint16_t>` of an `int16_t` value. -/
def toUnsigned16 (v : Int) : Nat := (v % 65536).toNat

/-- `static_cast<uint32_t>` of an `int32_t` value. -/
def toUnsigned32 (v : Int) : Nat := (v % 4294967296).toNat

/-- `static_cast<uint64_t>` of an `int64_t` value. -/
def toUnsigned64 (v : Int) : Nat := (v % 18446744073709551616).toNat

/-- `BinaryWriter::write_i8`. -/
def write_i8 (v : Int) : List Nat := write_u8 (toUnsigned8 v)

/-- `BinaryWriter::write_i16`. -/
def write_i16 (v : Int) : List Nat := write_u16 (toUnsigned16 v)

/-- `BinaryWriter::write_i32`. -/
def write_i32 (v : Int) : List Nat := write_u32 (toUnsigned32 v)

/-- `BinaryWriter::write_i64`. -/
def write_i64 (v : Int) : List Nat := write_u64 (toUnsigned64 v)

/-- `BinaryWriter::write_f32` on the float's bit pattern. -/
def write_f32 (bits : Nat) : List Nat := write_u32 bits

/-- `BinaryWriter::write_f64` on the float's bit pattern. -/
def write_f64 (bits : Nat) : List Nat := write_u64 bits

/-- `BinaryWriter::write_bool`: only `0` or `1` is ever written. -/
def write_bool (b : Bool) : List Nat := write_u8 (if b then 1 else 0)

/-- `BinaryWriter::write_string`: u32 byte length + raw bytes. -/
def write_string (s : List Nat) : List Nat := write_u32 s.length ++ s

/-- `BinaryWriter::write_bytes`: u32 byte length + raw bytes. -/
def write_bytes (b : List Nat) : List Nat := write_u32 b.length ++ b

/-- `BinaryWriter::write_optional`: presence flag + encoding iff present. -/
def write_optional (wf : α → List Nat) : Option α → List Nat
  | none => write_u8 0
  | some v => write_u8 1 ++ wf v

/-- `BinaryWriter::write_optional_string`. -/
def write_optional_string : Option (List Nat) → List Nat
  | none => write_u8 0
  | some s => write_u8 1 ++ write_string s

/-- The element loop of `BinaryWriter::write_vector`. -/
def encodeEach (wf : α → List Nat) : List α → List Nat
  | [] => []
  | x :: xs => wf x ++ encodeEach wf xs

/-- `BinaryWriter::write_vector`: u32 count + element encodings in order. -/
def write_vector (wf : α → List Nat) (xs : List α) : List Nat :=
  write_u32 xs.length ++ encodeEach wf xs

-- ============================================================
-- Basic codec lemmas
-- ============================================================

theorem encodeLE_length (n v : Nat) : (encodeLE n v).length = n := by
  induction n generalizing v with
  | zero => rfl
  | succ n ih => simp [encodeLE, ih]

theorem decodeLE_encodeLE (n v : Nat) :
    decodeLE (encodeLE n v) = v % 256 ^ n := by
  induction n generalizing v with
  | zero => simp [encodeLE, decodeLE, Nat.mod_one]
  | succ n ih =>
    simp only [encodeLE, decodeLE, ih]
    rw [pow_succ', Nat.mod_mul]

theorem read_uint_encodeLE (n v : Nat) (rest : ReaderData) (h : v < 256 ^ n) :
    read_uint n (encodeLE n v ++ rest) = .ok (v, rest) := by
  have hlen : (encodeLE n v).length = n := encodeLE_length n v
  unfold read_uint
  rw [if_pos (by simp [hlen]), List.take_left' hlen, List.drop_left' hlen,
    decodeLE_encodeLE, Nat.mod_eq_of_lt h]

theorem read_u8_write_u8 (v : Nat) (rest : ReaderData) (h : v < 256) :
    read_u8 (write_u8 v ++ rest) = .ok (v, rest) := by
  exact read_uint_encodeLE 1 v rest (by simpa using h)

theorem read_u16_write_u16 (v : Nat) (rest : ReaderData) (h : v < 65536) :
    read_u16 (write_u16 v ++ rest) = .ok (v, rest) := by
  exact read_uint_encodeLE 2 v rest (by norm_num at h ⊢; omega)

theorem read_u32_write_u32 (v : Nat) (rest : ReaderData) (h : v < 4294967296) :
    read_u32 (write_u32 v ++ rest) = .ok (v, rest) := by
  exact read_uint_encodeLE 4 v rest (by norm_num at h ⊢; omega)

theorem read_u64_write_u64 (v : Nat) (rest : ReaderData)
    (h : v < 18446744073709551616) :
    read_u64 (write_u64 v ++ rest) = .ok (v, rest) := by
  exact read_uint_encodeLE 8 v rest (by norm_num at h ⊢; omega)

theorem toSigned8_toUnsigned8 (v : Int) (h1 : -128 ≤ v) (h2 : v < 128) :
    toSigned8 (toUnsigned8 v) = v := by
  unfold toSigned8 toUnsigned8
  split <;> omega

theorem toSigned16_toUnsigned16 (v : Int) (h1 : -32768 ≤ v) (h2 : v < 32768) :
    toSigned16 (toUnsigned16 v) = v := by
  unfold toSigned16 toUnsigned16
  split <;> omega

theorem toSigned32_toUnsigned32 (v : Int) (h1 : -2147483648 ≤ v)
    (h2 : v < 2147483648) : toSigned32 (toUnsigned32 v) = v := by
  unfold toSigned32 toUnsigned32
  split <;> omega

theorem toSigned64_toUnsigned64 (v : Int) (h1 : -9223372036854775808 ≤ v)
    (h2 : v < 9223372036854775808) : toSigned64 (toUnsigned64 v) = v := by
  unfold toSigned64 toUnsigned64
  split <;> omega

theorem toUnsigned8_lt (v : Int) : toUnsigned8 v < 256 := by
  unfold toUnsigned8; omega

theorem toUnsigned16_lt (v : Int) : toUnsigned16 v < 65536 := by
  unfold toUnsigned16; omega

theorem toUnsigned32_lt (v : Int) : toUnsigned32 v < 4294967296 := by
  unfold toUnsigned32; omega

theorem toUnsigned64_lt (v : Int) : toUnsigned64 v < 18446744073709551616 := by
  unfold toUnsigned64; omega

theorem read_i8_write_i8 (v : Int) (rest : ReaderData)
    (h1 : -128 ≤ v) (h2 : v < 128) :
    read_i8 (write_i8 v ++ rest) = .ok (v, rest) := by
  unfold read_i8 write_i8
  rw [read_u8_write_u8 _ _ (toUnsigned8_lt v)]
  simp [mapVal, toSigned8_toUnsigned8 v h1 h2]

theorem read_i16_write_i16 (v : Int) (rest : ReaderData)
    (h1 : -32768 ≤ v) (h2 : v < 32768) :
    read_i16 (write_i16 v ++ rest) = .ok (v, rest) := by
  unfold read_i16 write_i16
  rw [read_u16_write_u16 _ _ (toUnsigned16_lt v)]
  simp [mapVal, toSigned16_toUnsigned16 v h1 h2]

theorem read_i32_write_i32 (v : Int) (rest : ReaderData)
    (h1 : -2147483648 ≤ v) (h2 : v < 2147483648) :
    read_i32 (write_i32 v ++ rest) = .ok (v, rest) := by
  unfold read_i32 write_i32
  rw [read_u32_write_u32 _ _ (toUnsigned32_lt v)]
  simp [mapVal, toSigned32_toUnsigned32 v h1 h2]

theorem read_i64_write_i64 (v : Int) (rest : ReaderData)
    (h1 : -9223372036854775808 ≤ v) (h2 : v < 9223372036854775808) :
    read_i64 (write_i64 v ++ rest) = .ok (v, rest) := by
  unfold read_i64 write_i64
  rw [read_u64_write_u64 _ _ (toUnsigned64_lt v)]
  simp [mapVal, toSigned64_toUnsigned64 v h1 h2]

theorem read_f32_write_f32 (bits : Nat) (rest : ReaderData)
    (h : bits < 4294967296) :
    read_f32 (write_f32 bits ++ rest) = .ok (bits, rest) :=
  read_u32_write_u32 bits rest h

theorem read_f64_write_f64 (bits : Nat) (rest : ReaderData)
    (h : bits < 18446744073709551616) :
    read_f64 (write_f64 bits ++ rest) = .ok (bits, rest) :=
  read_u64_write_u64 bits rest h

theorem read_bool_write_bool (b : Bool) (rest : ReaderData) :
    read_bool (write_bool b ++ rest) = .ok (b, rest) := by
  cases b
  · show mapVal _ (read_u8 (write_u8 0 ++ rest)) = _
    rw [read_u8_write_u8 0 rest (by norm_num)]
    rfl
  · show mapVal _ (read_u8 (write_u8 1 ++ rest)) = _
    rw [read_u8_write_u8 1 rest (by norm_num)]
    rfl

theorem read_string_write_string (s : List Nat) (rest : ReaderData)
    (h : s.length < 4294967296) :
    read_string (write_string s ++ rest) = .ok (s, rest) := by
  unfold read_string write_string
  rw [List.append_assoc, read_u32_write_u32 _ _ h]
  rcases s with _ | ⟨a, s'⟩
  · simp
  · dsimp only
    rw [if_neg (by simp), if_pos (by simp),
      List.take_left' rfl, List.drop_left' rfl]

theorem read_bytes_write_bytes (b : List Nat) (rest : ReaderData)
    (h : b.length < 4294967296) :
    read_bytes (write_bytes b ++ rest) = .ok (b, rest) := by
  unfold read_bytes write_bytes
  rw [List.append_assoc, read_u32_write_u32 _ _ h]
  rcases b with _ | ⟨a, b'⟩
  · simp
  · dsimp only
    rw [if_neg (by simp), if_pos (by simp),
      List.take_left' rfl, List.drop_left' rfl]

theorem read_list_encodeEach (wf : α → List Nat)
    (rf : ReaderData → Except WireError (α × ReaderData)) (xs : List α)
    (rest : ReaderData)
    (helem : ∀ x ∈ xs, ∀ r, rf (wf x ++ r) = .ok (x, r)) :
    read_list rf xs.length (encodeEach wf xs ++ rest) = .ok (xs, rest) := by
  induction xs with
  | nil => simp [read_list, encodeEach]
  | cons x xs ih =>
    simp only [List.length_cons, encodeEach, read_list, List.append_assoc]
    rw [helem x (by simp) (encodeEach wf xs ++ rest)]
    dsimp only
    rw [ih (fun y hy r => helem y (by simp [hy]) r)]

theorem read_vector_write_vector (wf : α → List Nat)
    (rf : ReaderData → Except WireError (α × ReaderData)) (xs : List α)
    (rest : ReaderData)
    (helem : ∀ x ∈ xs, ∀ r, rf (wf x ++ r) = .ok (x, r))
    (hlen : xs.length < 4294967296) :
    read_vector rf (write_vector wf xs ++ rest) = .ok (xs, rest) := by
  unfold read_vector write_vector
  rw [List.append_assoc, read_u32_write_u32 _ _ hlen]
  exact read_list_encodeEach wf rf xs rest helem

-- ============================================================
-- C1: primitive wire round-trip
-- ============================================================

/-- C1: for every primitive wire value (u8, u16, u32, u64, i8, i16, i32,
i64, f32, f64, bool, string, bytes) within its type's range, decoding the
bytes produced by encoding the value returns an equal value and consumes
exactly the encoding, including boundary values; floats round-trip exactly
via their bit pattern, and sequences round-trip element-wise. -/
theorem wire_primitive_roundtrip :
    (∀ v rest, v < 256 → read_u8 (write_u8 v ++ rest) = .ok (v, rest)) ∧
    (∀ v rest, v < 65536 → read_u16 (write_u16 v ++ rest) = .ok (v, rest)) ∧
    (∀ v rest, v < 4294967296 →
      read_u32 (write_u32 v ++ rest) = .ok (v, rest)) ∧
    (∀ v rest, v < 18446744073709551616 →
      read_u64 (write_u64 v ++ rest) = .ok (v, rest)) ∧
    (∀ (v : Int) rest, -128 ≤ v → v < 128 →
      read_i8 (write_i8 v ++ rest) = .ok (v, rest)) ∧
    (∀ (v : Int) rest, -32768 ≤ v → v < 32768 →
      read_i16 (write_i16 v ++ rest) = .ok (v, rest)) ∧
    (∀ (v : Int) rest, -2147483648 ≤ v → v < 2147483648 →
      read_i32 (write_i32 v ++ rest) = .ok (v, rest)) ∧
    (∀ (v : Int) rest, -9223372036854775808 ≤ v → v < 9223372036854775808 →
      read_i64 (write_i64 v ++ rest) = .ok (v, rest)) ∧
    (∀ bits rest, bits < 4294967296 →
      read_f32 (write_f32 bits ++ rest) = .ok (bits, rest)) ∧
    (∀ bits rest, bits < 18446744073709551616 →
      read_f64 (write_f64 bits ++ rest) = .ok (bits, rest)) ∧
    (∀ (b : Bool) rest, read_bool (write_bool b ++ rest) = .ok (b, rest)) ∧
    (∀ (s : List Nat) rest, s.length < 4294967296 →
      read_string (write_string s ++ rest) = .ok (s, rest)) ∧
    (∀ (b : List Nat) rest, b.length < 4294967296 →
      read_bytes (write_bytes b ++ rest) = .ok (b, rest)) ∧
    (∀ (α : Type) (wf : α → List Nat)
      (rf : ReaderData → Except WireError (α × ReaderData)) (xs : List α)
      rest, (∀ x ∈ xs, ∀ r, rf (wf x ++ r) = .ok (x, r)) →
      xs.length < 4294967296 →
      read_vector rf (write_vector wf xs ++ rest) = .ok (xs, rest)) :=
  ⟨read_u8_write_u8, read_u16_write_u16, read_u32_write_u32,
    read_u64_write_u64, read_i8_write_i8, read_i16_write_i16,
    read_i32_write_i32, read_i64_write_i64, read_f32_write_f32,
    read_f64_write_f64, read_bool_write_bool, read_string_write_string,
    read_bytes_write_bytes,
    fun _ wf rf xs rest helem hlen =>
      read_vector_write_vector wf rf xs rest helem hlen⟩

/-- C1 witness: the round-trip theorem evaluated at the boundary values
`u8 = 255`, `i64 = -9223372036854775808`, the empty string, empty bytes
and the empty sequence. -/
theorem wire_primitive_roundtrip_witness :
    read_u8 (write_u8 255 ++ []) = .ok (255, []) ∧
    read_i64 (write_i64 (-9223372036854775808) ++ []) =
      .ok (-9223372036854775808, []) ∧
    read_string (write_string [] ++ []) = .ok ([], []) ∧
    read_bytes (write_bytes [] ++ []) = .ok ([], []) ∧
    read_vector read_u8 (write_vector write_u8 [] ++ []) = .ok ([], []) :=
  ⟨wire_primitive_roundtrip.1 255 [] (by decide),
    wire_primitive_roundtrip.2.2.2.2.2.2.2.1 (-9223372036854775808) []
      (by decide) (by decide),
    wire_primitive_roundtrip.2.2.2.2.2.2.2.2.2.2.2.1 [] [] (by decide),
    wire_primitive_roundtrip.2.2.2.2.2.2.2.2.2.2.2.2.1 [] [] (by decide),
    wire_primitive_roundtrip.2.2.2.2.2.2.2.2.2.2.2.2.2 Nat write_u8 read_u8
      [] [] (fun x hx => absurd hx (List.not_mem_nil x)) (by decide)⟩

-- ============================================================
-- C2: truncated decode fails with TruncatedInput
-- ============================================================

theorem read_uint_short (n : Nat) (data : ReaderData)
    (h : data.length < n) : read_uint n data = .error .truncatedInput := by
  unfold read_uint
  rw [if_neg (by omega)]

theorem mapVal_error (f : α → β) (e : WireError)
    (r : Except WireError (α × ReaderData)) (h : r = .error e) :
    mapVal f r = .error e := by
  rw [h]; rfl

theorem read_string_payload_short (data rest : ReaderData) (len : Nat)
    (hu : read_u32 data = .ok (len, rest)) (hpos : 0 < len)
    (hshort : rest.length < len) :
    read_string data = .error .truncatedInput := by
  unfold read_string
  rw [hu]
  dsimp only
  rw [if_neg (by omega), if_neg (by omega)]

/-- C2: every decode of a primitive kind on a cursor with fewer remaining
bytes than the kind requires fails with `TruncatedInput`; the failure
propagates unchanged to the direct caller of a composite decode; and
`TruncatedInput` is the only error kind of the wire codec layer. -/
theorem wire_truncated_input :
    (∀ data : ReaderData, data.length < 1 →
      read_u8 data = .error .truncatedInput) ∧
    (∀ data : ReaderData, data.length < 2 →
      read_u16 data = .error .truncatedInput) ∧
    (∀ data : ReaderData, data.length < 4 →
      read_u32 data = .error .truncatedInput) ∧
    (∀ data : ReaderData, data.length < 8 →
      read_u64 data = .error .truncatedInput) ∧
    (∀ data : ReaderData, data.length < 1 →
      read_i8 data = .error .truncatedInput) ∧
    (∀ data : ReaderData, data.length < 2 →
      read_i16 data = .error .truncatedInput) ∧
    (∀ data : ReaderData, data.length < 4 →
      read_i32 data = .error .truncatedInput) ∧
    (∀ data : ReaderData, data.length < 8 →
      read_i64 data = .error .truncatedInput) ∧
    (∀ data : ReaderData, data.length < 4 →
      read_f32 data = .error .truncatedInput) ∧
    (∀ data : ReaderData, data.length < 8 →
      read_f64 data = .error .truncatedInput) ∧
    (∀ data : ReaderData, data.length < 1 →
      read_bool data = .error .truncatedInput) ∧
    (∀ data : ReaderData, data.length < 4 →
      read_string data = .error .truncatedInput) ∧
    (∀ (data rest : ReaderData) (len : Nat),
      read_u32 data = .ok (len, rest) → 0 < len → rest.length < len →
      read_string data = .error .truncatedInput) ∧
    (∀ data : ReaderData, data.length < 4 →
      read_bytes data = .error .truncatedInput) ∧
    (∀ (α : Type) (rf : ReaderData → Except WireError (α × ReaderData))
      (b : Nat) (data : ReaderData) (e : WireError), b ≠ 0 →
      rf data = .error e → read_optional rf (b :: data) = .error e) ∧
    (∀ e : WireError, e = .truncatedInput) := by
  refine ⟨fun d h => read_uint_short 1 d h, fun d h => read_uint_short 2 d h,
    fun d h => read_uint_short 4 d h, fun d h => read_uint_short 8 d h,
    fun d h => mapVal_error _ _ _ (read_uint_short 1 d h),
    fun d h => mapVal_error _ _ _ (read_uint_short 2 d h),
    fun d h => mapVal_error _ _ _ (read_uint_short 4 d h),
    fun d h => mapVal_error _ _ _ (read_uint_short 8 d h),
    fun d h => read_uint_short 4 d h, fun d h => read_uint_short 8 d h,
    fun d h => mapVal_error _ _ _ (read_uint_short 1 d h),
    ?_, read_string_payload_short, ?_, ?_, fun e => by cases e; rfl⟩
  · intro d h
    unfold read_string
    rw [show read_u32 d = .error .truncatedInput from read_uint_short 4 d h]
  · intro d h
    unfold read_bytes
    rw [show read_u32 d = .error .truncatedInput from read_uint_short 4 d h]
  · intro α rf b data e hb hrf
    unfold read_optional
    rw [show read_u8 (b :: data) = .ok (b, data) by
      simp [read_u8, read_uint, decodeLE]]
    dsimp only
    rw [if_neg hb, hrf]

/-- C2 witness: truncation failures observed at concrete short inputs. -/
theorem wire_truncated_input_witness :
    read_u8 [] = .error .truncatedInput ∧
    read_u16 [7] = .error .truncatedInput ∧
    read_i64 [1, 2, 3] = .error .truncatedInput ∧
    read_string [1, 0, 0, 0] = .error .truncatedInput ∧
    read_optional read_u8 [1] = .error .truncatedInput :=
  ⟨wire_truncated_input.1 [] (by decide),
    wire_truncated_input.2.1 [7] (by decide),
    wire_truncated_input.2.2.2.2.2.2.2.1 [1, 2, 3] (by decide),
    wire_truncated_input.2.2.2.2.2.2.2.2.2.2.2.2.1 [1, 0, 0, 0] []
      1 rfl (by decide) (by decide),
    wire_truncated_input.2.2.2.2.2.2.2.2.2.2.2.2.2.2.1 Nat read_u8 1 []
      .truncatedInput (by decide) rfl⟩

-- ============================================================
-- C3 / C9: optional encoding and the presence flag
-- ============================================================

theorem read_u8_cons (b : Nat) (data : ReaderData) :
    read_u8 (b :: data) = .ok (b, data) := by
  simp [read_u8, read_uint, decodeLE]

/-- C3: absent `optional<T>` encodes to exactly the single byte `0` and
decodes back to absent; present `optional<T>` encodes to the byte `1`
followed by exactly the inner encoding, and (whenever the inner codec
round-trips) decodes back to a present equal value. -/
theorem optional_roundtrip :
    (∀ (α : Type) (wf : α → List Nat),
      write_optional wf (none : Option α) = [0]) ∧
    (∀ (α : Type) (wf : α → List Nat) (v : α),
      write_optional wf (some v) = 1 :: wf v) ∧
    (∀ (α : Type) (wf : α → List Nat)
      (rf : ReaderData → Except WireError (α × ReaderData)) (rest : ReaderData),
      read_optional rf (write_optional wf (none : Option α) ++ rest) =
        .ok (none, rest)) ∧
    (∀ (α : Type) (wf : α → List Nat)
      (rf : ReaderData → Except WireError (α × ReaderData)) (v : α)
      (rest : ReaderData), (∀ r, rf (wf v ++ r) = .ok (v, r)) →
      read_optional rf (write_optional wf (some v) ++ rest) =
        .ok (some v, rest)) := by
  refine ⟨fun α wf => rfl, fun α wf v => rfl, fun α wf rf rest => ?_,
    fun α wf rf v rest hrf => ?_⟩
  · rw [show write_optional wf (none : Option α) ++ rest = 0 :: rest from rfl]
    unfold read_optional
    rw [read_u8_cons]
    rfl
  · show read_optional rf ((write_u8 1 ++ wf v) ++ rest) = .ok (some v, rest)
    unfold read_optional
    rw [List.append_assoc, show write_u8 1 ++ (wf v ++ rest) =
      1 :: (wf v ++ rest) from rfl, read_u8_cons]
    dsimp only
    rw [if_neg (by norm_num), hrf rest]

/-- C3 witness: both optional cases at the `u8` codec and value `42`. -/
theorem optional_roundtrip_witness :
    read_optional read_u8 (write_optional write_u8 (none : Option Nat) ++ [])
      = .ok (none, []) ∧
    read_optional read_u8 (write_optional write_u8 (some 42) ++ []) =
      .ok (some 42, []) ∧
    write_optional write_u8 (none : Option Nat) = [0] ∧
    write_optional write_u8 (some 42) = 1 :: write_u8 42 :=
  ⟨optional_roundtrip.2.2.1 Nat write_u8 read_u8 [],
    optional_roundtrip.2.2.2 Nat write_u8 read_u8 42 []
      (fun r => read_u8_write_u8 42 r (by norm_num)),
    optional_roundtrip.1 Nat write_u8,
    optional_roundtrip.2.1 Nat write_u8 42⟩

/-- C9: the decoder of `optional<T>` treats every nonzero presence-flag
byte (not only `1`) as present and proceeds to the inner decode; only a
`0` flag decodes to absent.  Likewise for `read_optional_string`. -/
theorem optional_nonzero_flag :
    (∀ (α : Type) (rf : ReaderData → Except WireError (α × ReaderData))
      (b : Nat) (data : ReaderData), b ≠ 0 →
      read_optional rf (b :: data) = mapVal some (rf data)) ∧
    (∀ (b : Nat) (data : ReaderData), b ≠ 0 →
      read_optional_string (b :: data) = mapVal some (read_string data)) ∧
    (∀ (α : Type) (rf : ReaderData → Except WireError (α × ReaderData))
      (data : ReaderData), read_optional rf (0 :: data) = .ok (none, data)) ∧
    (∀ data : ReaderData, read_optional_string (0 :: data) =
      .ok (none, data)) := by
  refine ⟨fun α rf b data hb => ?_, fun b data hb => ?_,
    fun α rf data => ?_, fun data => ?_⟩
  · unfold read_optional
    rw [read_u8_cons]
    dsimp only
    rw [if_neg hb]
    cases h : rf data with
    | error e => rfl
    | ok p => rcases p with ⟨v, r⟩; rfl
  · unfold read_optional_string
    rw [read_u8_cons]
    dsimp only
    rw [if_neg hb]
    cases h : read_string data with
    | error e => rfl
    | ok p => rcases p with ⟨v, r⟩; rfl
  · unfold read_optional
    rw [read_u8_cons]
    rfl
  · unfold read_optional_string
    rw [read_u8_cons]
    rfl

/-- C9 witness: flag byte `2` is treated as present. -/
theorem optional_nonzero_flag_witness :
    read_optional read_u8 (2 :: [5]) = mapVal some (read_u8 [5]) ∧
    read_optional_string (7 :: write_string [65]) =
      mapVal some (read_string (write_string [65])) ∧
    read_optional read_u8 (0 :: [5]) = .ok (none, [5]) :=
  ⟨optional_nonzero_flag.1 Nat read_u8 2 [5] (by decide),
    optional_nonzero_flag.2.1 7 (write_string [65]) (by decide),
    optional_nonzero_flag.2.2.1 Nat read_u8 [5]⟩

-- ============================================================
-- Index layer: UniqueIndex and GroupIndex
-- ============================================================

/-- `polygen::UniqueIndex`: an `unordered_map<K, V*>`, modelled as an
association list with at most one entry per key; `V` stands for the stored
row reference (`V*` in C++). -/
structure UniqueIndex (K V : Type) where
  index : List (K × V)

/-- `index_[key] = value`: replace the value of the entry for `key`, or
append a fresh entry when the key is absent. -/
def setAssoc [DecidableEq K] : List (K × V) → K → V → List (K × V)
  | [], k, v => [(k, v)]
  | (k', v') :: rest, k, v =>
    if k' = k then (k', v) :: rest else (k', v') :: setAssoc rest k v

/-- `find(key)` on the map: the stored value, if any. -/
def getAssoc [DecidableEq K] : List (K × V) → K → Option V
  | [], _ => none
  | (k', v) :: rest, k => if k' = k then some v else getAssoc rest k

/-- `UniqueIndex::insert`: overwrites any existing mapping for `key`. -/
def UniqueIndex.insert [DecidableEq K] (m : UniqueIndex K V) (k : K)
    (v : V) : UniqueIndex K V :=
  ⟨setAssoc m.index k v⟩

/-- `UniqueIndex::get`: `nullptr` (here `none`) when the key is absent. -/
def UniqueIndex.get [DecidableEq K] (m : UniqueIndex K V) (k : K) :
    Option V :=
  getAssoc m.index k

/-- `UniqueIndex::contains`. -/
def UniqueIndex.contains [DecidableEq K] (m : UniqueIndex K V) (k : K) :
    Bool :=
  (getAssoc m.index k).isSome

/-- `UniqueIndex::clear`. -/
def UniqueIndex.clear (_ : UniqueIndex K V) : UniqueIndex K V := ⟨[]⟩

/-- The empty `UniqueIndex` (a default-constructed one). -/
def UniqueIndex.empty : UniqueIndex K V := ⟨[]⟩

/-- Run a sequence of `insert` calls against the empty index. -/
def UniqueIndex.ofOps [DecidableEq K] (ops : List (K × V)) :
    UniqueIndex K V :=
  ops.foldl (fun m p => m.insert p.1 p.2) UniqueIndex.empty

theorem getAssoc_setAssoc_same [DecidableEq K] (l : List (K × V)) (k : K)
    (v : V) : getAssoc (setAssoc l k v) k = some v := by
  induction l with
  | nil => simp [setAssoc, getAssoc]
  | cons p rest ih =>
    rcases p with ⟨k', v'⟩
    by_cases h : k' = k
    · simp [setAssoc, getAssoc, h]
    · simp [setAssoc, getAssoc, h, ih]

theorem getAssoc_setAssoc_other [DecidableEq K] (l : List (K × V))
    (k k2 : K) (v : V) (h : k ≠ k2) :
    getAssoc (setAssoc l k v) k2 = getAssoc l k2 := by
  induction l with
  | nil => simp [setAssoc, getAssoc, fun hh => h hh]
  | cons p rest ih =>
    rcases p with ⟨k', v'⟩
    by_cases hk : k' = k
    · subst hk
      simp [setAssoc, getAssoc, fun hh => h hh]
    · simp [setAssoc, getAssoc, hk, ih]

theorem UniqueIndex.get_ofOps_absent [DecidableEq K]
    (ops : List (K × V)) (k : K) (h : ∀ p ∈ ops, p.1 ≠ k) :
    (UniqueIndex.ofOps ops).get k = none := by
  suffices hgen : ∀ m : UniqueIndex K V, m.get k = none →
      (ops.foldl (fun m p => m.insert p.1 p.2) m).get k = none by
    exact hgen UniqueIndex.empty rfl
  induction ops with
  | nil => intro m hm; exact hm
  | cons p rest ih =>
    intro m hm
    rcases p with ⟨k1, v1⟩
    exact ih (fun q hq => h q (by simp [hq]))
      (m.insert k1 v1) (by
        show getAssoc (setAssoc m.index k1 v1) k = none
        rw [getAssoc_setAssoc_other m.index k1 k v1 (h (k1, v1) (by simp))]
        exact hm)

-- ============================================================
-- C4: UniqueIndex overwrite and not-found semantics
-- ============================================================

/-- C4: inserting twice under the same key leaves the later row reference
in the unique index (last write wins), and a key never inserted yields an
explicit `none` result rather than an error. -/
theorem unique_index_overwrite :
    (∀ (K V : Type) [DecidableEq K] (m : UniqueIndex K V) (k : K)
      (r1 r2 : V), ((m.insert k r1).insert k r2).get k = some r2) ∧
    (∀ (K V : Type) [DecidableEq K] (ops : List (K × V)) (k : K),
      (∀ p ∈ ops, p.1 ≠ k) → (UniqueIndex.ofOps ops).get k = none) :=
  ⟨fun _ _ _ _ k _ r2 => getAssoc_setAssoc_same _ k r2,
    fun _ _ _ ops k h => UniqueIndex.get_ofOps_absent ops k h⟩

/-- C4 witness: two inserts under key `1` resolve to the second row, and
key `999` (never inserted) reports not-found. -/
theorem unique_index_overwrite_witness :
    ((UniqueIndex.empty.insert 1 10).insert 1 20).get 1 = some 20 ∧
    (UniqueIndex.ofOps [(1, 10), (2, 20)]).get 999 = none :=
  ⟨unique_index_overwrite.1 Nat Nat UniqueIndex.empty 1 10 20,
    unique_index_overwrite.2 Nat Nat [(1, 10), (2, 20)] 999 (by decide)⟩

/-- `polygen::GroupIndex`: an `unordered_map<K, std::vector<V*>>`,
modelled as an association list from keys to the ordered row-reference
lists. -/
structure GroupIndex (K V : Type) where
  index : List (K × List V)

/-- `index_[key].push_back(value)`: append to the entry's vector, creating
the (singleton) entry when the key is absent. -/
def pushAssoc [DecidableEq K] : List (K × List V) → K → V → List (K × List V)
  | [], k, v => [(k, [v])]
  | (k', vs) :: rest, k, v =>
    if k' = k then (k', vs ++ [v]) :: rest
    else (k', vs) :: pushAssoc rest k v

/-- `GroupIndex::insert`: appends `v` to the ordered list for `k`. -/
def GroupIndex.insert [DecidableEq K] (g : GroupIndex K V) (k : K)
    (v : V) : GroupIndex K V :=
  ⟨pushAssoc g.index k v⟩

/-- `GroupIndex::get`: the stored list, or the shared empty vector when
the key is absent (never a failure). -/
def GroupIndex.get [DecidableEq K] (g : GroupIndex K V) (k : K) : List V :=
  (getAssoc g.index k).getD []

/-- `GroupIndex::contains`. -/
def GroupIndex.contains [DecidableEq K] (g : GroupIndex K V) (k : K) :
    Bool :=
  (getAssoc g.index k).isSome

/-- `GroupIndex::clear`. -/
def GroupIndex.clear (_ : GroupIndex K V) : GroupIndex K V := ⟨[]⟩

/-- The empty `GroupIndex` (a default-constructed one). -/
def GroupIndex.empty : GroupIndex K V := ⟨[]⟩

/-- Run a sequence of `insert` calls against the empty group index. -/
def GroupIndex.ofOps [DecidableEq K] (ops : List (K × V)) :
    GroupIndex K V :=
  ops.foldl (fun g p => g.insert p.1 p.2) GroupIndex.empty

theorem GroupIndex.get_insert_same [DecidableEq K] (g : GroupIndex K V)
    (k : K) (v : V) : (g.insert k v).get k = g.get k ++ [v] := by
  rcases g with ⟨l⟩
  show (getAssoc (pushAssoc l k v) k).getD [] = (getAssoc l k).getD [] ++ [v]
  induction l with
  | nil => simp [pushAssoc, getAssoc]
  | cons p rest ih =>
    rcases p with ⟨k', vs⟩
    by_cases h : k' = k
    · simp [pushAssoc, getAssoc, h]
    · simp [pushAssoc, getAssoc, h, ih]

theorem GroupIndex.get_insert_other [DecidableEq K] (g : GroupIndex K V)
    (k k2 : K) (v : V) (h : k ≠ k2) :
    (g.insert k v).get k2 = g.get k2 := by
  rcases g with ⟨l⟩
  show (getAssoc (pushAssoc l k v) k2).getD [] = (getAssoc l k2).getD []
  induction l with
  | nil => simp [pushAssoc, getAssoc, fun hh => h hh]
  | cons p rest ih =>
    rcases p with ⟨k', vs⟩
    by_cases hk : k' = k
    · subst hk
      simp [pushAssoc, getAssoc, fun hh => h hh]
    · by_cases hk2 : k' = k2
      · subst hk2
        simp [pushAssoc, getAssoc, hk]
      · simp [pushAssoc, getAssoc, hk, hk2, ih]

theorem GroupIndex.contains_insert_other [DecidableEq K]
    (g : GroupIndex K V) (k k2 : K) (v : V) (h : k ≠ k2) :
    (g.insert k v).contains k2 = g.contains k2 := by
  rcases g with ⟨l⟩
  show (getAssoc (pushAssoc l k v) k2).isSome = (getAssoc l k2).isSome
  induction l with
  | nil => simp [pushAssoc, getAssoc, fun hh => h hh]
  | cons p rest ih =>
    rcases p with ⟨k', vs⟩
    by_cases hk : k' = k
    · subst hk
      simp [pushAssoc, getAssoc, fun hh => h hh]
    · by_cases hk2 : k' = k2
      · subst hk2
        simp [pushAssoc, getAssoc, hk]
      · simp [pushAssoc, getAssoc, hk, hk2, ih]

theorem GroupIndex.get_ofOps [DecidableEq K] (ops : List (K × V)) (k : K) :
    (GroupIndex.ofOps ops).get k =
      (ops.filter (fun p => decide (p.1 = k))).map Prod.snd := by
  suffices hgen : ∀ g : GroupIndex K V,
      (ops.foldl (fun g p => g.insert p.1 p.2) g).get k =
        g.get k ++ (ops.filter (fun p => decide (p.1 = k))).map Prod.snd by
    have := hgen GroupIndex.empty
    simpa [GroupIndex.ofOps, GroupIndex.empty, GroupIndex.get, getAssoc]
      using this
  induction ops with
  | nil => intro g; simp
  | cons p rest ih =>
    intro g
    rcases p with ⟨k1, v1⟩
    by_cases h : k1 = k
    · subst h
      simp only [List.foldl_cons, List.filter_cons, decide_eq_true_eq,
        if_pos rfl, List.map_cons]
      rw [ih (g.insert k1 v1), GroupIndex.get_insert_same]
      simp
    · simp only [List.foldl_cons, List.filter_cons]
      rw [ih (g.insert k1 v1), GroupIndex.get_insert_other g k1 k v1 h]
      simp [h]

theorem GroupIndex.contains_ofOps_absent [DecidableEq K]
    (ops : List (K × V)) (k : K) (h : ∀ p ∈ ops, p.1 ≠ k) :
    (GroupIndex.ofOps ops).contains k = false := by
  suffices hgen : ∀ g : GroupIndex K V, g.contains k = false →
      (ops.foldl (fun g p => g.insert p.1 p.2) g).contains k = false by
    exact hgen GroupIndex.empty rfl
  induction ops with
  | nil => intro g hg; exact hg
  | cons p rest ih =>
    intro g hg
    rcases p with ⟨k1, v1⟩
    exact ih (fun q hq => h q (by simp [hq])) (g.insert k1 v1)
      (by rw [GroupIndex.contains_insert_other g k1 k v1
        (h (k1, v1) (by simp))]; exact hg)

-- ============================================================
-- C5: GroupIndex returns exactly the rows inserted, in order
-- ============================================================

/-- C5: after any sequence of inserts, `get k` returns exactly the row
references inserted under `k`, in insertion order; a key with no
insertions yields the empty sequence and `contains` is `false` — never a
failure. -/
theorem group_index_get :
    (∀ (K V : Type) [DecidableEq K] (ops : List (K × V)) (k : K),
      (GroupIndex.ofOps ops).get k =
        (ops.filter (fun p => decide (p.1 = k))).map Prod.snd) ∧
    (∀ (K V : Type) [DecidableEq K] (ops : List (K × V)) (k : K),
      (∀ p ∈ ops, p.1 ≠ k) →
      (GroupIndex.ofOps ops).get k = [] ∧
        (GroupIndex.ofOps ops).contains k = false) :=
  ⟨fun K V _ ops k => GroupIndex.get_ofOps ops k,
    fun K V _ ops k h =>
      ⟨by
        rw [GroupIndex.get_ofOps ops k]
        rw [List.filter_eq_nil_iff.mpr
          (fun p hp => by simpa using h p hp)]
        rfl,
        GroupIndex.contains_ofOps_absent ops k h⟩⟩

/-- C5 witness: two rows inserted under key `5` come back in insertion
order; the unused key `9` yields the empty sequence and `contains` is
`false`. -/
theorem group_index_get_witness :
    (GroupIndex.ofOps [(5, 100), (3, 50), (5, 200)]).get 5 = [100, 200] ∧
    (GroupIndex.ofOps [(5, 100), (3, 50), (5, 200)]).get 9 = [] ∧
    (GroupIndex.ofOps [(5, 100), (3, 50), (5, 200)]).contains 9 = false := by
  refine ⟨?_, ?_, ?_⟩
  · rw [group_index_get.1 Nat Nat [(5, 100), (3, 50), (5, 200)] 5]
    decide
  · exact (group_index_get.2 Nat Nat [(5, 100), (3, 50), (5, 200)] 9
      (by decide)).1
  · exact (group_index_get.2 Nat Nat [(5, 100), (3, 50), (5, 200)] 9
      (by decide)).2

-- ============================================================
-- Row store: DataTable
-- ============================================================

/-- `polygen::DataTable`: a `std::deque<T>` of rows; `add_row` pushes at
the back and never relocates existing rows, so the sequence of row values
(and, in C++, their addresses) at existing positions is preserved. -/
structure DataTable (T : Type) where
  rows : List T

/-- `DataTable::add_row`. -/
def DataTable.add_row (t : DataTable T) (r : T) : DataTable T :=
  ⟨t.rows ++ [r]⟩

/-- `DataTable::count`. -/
def DataTable.count (t : DataTable T) : Nat := t.rows.length

/-- `DataTable::clear`. -/
def DataTable.clear (_ : DataTable T) : DataTable T := ⟨[]⟩

/-- A sequence of further `add_row` calls. -/
def DataTable.add_rows (t : DataTable T) (rs : List T) : DataTable T :=
  rs.foldl DataTable.add_row t

theorem DataTable.add_rows_rows (t : DataTable T) (rs : List T) :
    (t.add_rows rs).rows = t.rows ++ rs := by
  induction rs generalizing t with
  | nil => simp [DataTable.add_rows]
  | cons r rs ih =>
    show ((t.add_row r).add_rows rs).rows = t.rows ++ r :: rs
    rw [ih (t.add_row r)]
    simp [DataTable.add_row]

-- ============================================================
-- C6: row stability under further insertions
-- ============================================================

/-- C6: for every row position `i < count`, any number of further
`add_row` calls leaves the row at position `i` unchanged, and `count`
grows by exactly one per added row (until `clear`). -/
theorem datatable_row_stability :
    ∀ (T : Type) (t : DataTable T) (added : List T) (i : Nat),
      i < t.count →
      (t.add_rows added).rows[i]? = t.rows[i]? ∧
        (t.add_rows added).count = t.count + added.length := by
  intro T t added i hi
  constructor
  · rw [DataTable.add_rows_rows, List.getElem?_append_left hi]
  · show (t.add_rows added).rows.length = t.rows.length + added.length
    rw [DataTable.add_rows_rows, List.length_append]

/-- C6 witness: a one-row table keeps its first row across two further
insertions, and its count becomes three. -/
theorem datatable_row_stability_witness :
    ((DataTable.mk [10]).add_rows [20, 30]).rows[0]? =
      (DataTable.mk [10]).rows[0]? ∧
    ((DataTable.mk [10]).add_rows [20, 30]).count =
      (DataTable.mk [10]).count + 2 :=
  datatable_row_stability Nat (DataTable.mk [10]) [20, 30] 0 (by decide)

-- ============================================================
-- C7: clear semantics of a populated schema container
-- ============================================================

/-- Modelled from the spec: the generator-emitted Schema Container (not
part of the support library source; only its contract is specified) owns
one Row Store per table plus one index per declared `primary_key` /
`unique` / `foreign_key` annotation, and its `clear` resets the store and
all its indexes in lock-step (as exercised by the generated
`container.users.clear()` in `test_07_indexes.cpp`). -/
structure SchemaContainer (K1 K2 R : Type) where
  table : DataTable R
  byKey : UniqueIndex K1 R
  byGroup : GroupIndex K2 R

/-- Modelled from the spec: container clear resets the Row Store and every
index of the table. -/
def SchemaContainer.clear (c : SchemaContainer K1 K2 R) :
    SchemaContainer K1 K2 R :=
  ⟨c.table.clear, c.byKey.clear, c.byGroup.clear⟩

/-- C7: after `clear()` on a populated schema container, `count()` is `0`
and every lookup of a previously present key reports not-found (the
unique index returns `none`, the group index the empty sequence). -/
theorem container_clear :
    ∀ (K1 K2 R : Type) [DecidableEq K1] [DecidableEq K2]
      (c : SchemaContainer K1 K2 R) (k1 : K1) (k2 : K2),
      c.clear.table.count = 0 ∧
      (c.byKey.contains k1 = true → c.clear.byKey.get k1 = none) ∧
      (c.byGroup.contains k2 = true →
        c.clear.byGroup.get k2 = [] ∧ c.clear.byGroup.contains k2 = false) :=
  fun _ _ _ _ _ _ _ _ =>
    ⟨rfl, fun _ => rfl, fun _ => ⟨rfl, rfl⟩⟩

/-- A concrete populated container: one row, indexed under unique key `1`
and group key `2`. -/
def demoContainer : SchemaContainer Nat Nat Nat :=
  ⟨DataTable.mk [77], UniqueIndex.mk [(1, 77)], GroupIndex.mk [(2, [77])]⟩

/-- C7 witness: a container holding one row indexed under keys `1` and
`2` loses the row and both index entries on `clear`. -/
theorem container_clear_witness :
    demoContainer.clear.table.count = 0 ∧
    (demoContainer.clear.byKey.get 1 = none ∧
    (demoContainer.clear.byGroup.get 2 = [] ∧
      demoContainer.clear.byGroup.contains 2 = false)) := by
  have h := container_clear Nat Nat Nat demoContainer 1 2
  exact ⟨h.1, h.2.1 (by decide), h.2.2 (by decide)⟩

-- ============================================================
-- The buffering BinaryWriter object and flush
-- ============================================================

/-- A `BinaryWriter` constructed over a byte vector: `buf` is the owned
`std::ostringstream` contents, `vec` the external vector's contents. -/
structure BinaryWriter where
  buf : List Nat
  vec : List Nat

/-- `BinaryWriter(std::vector<uint8_t>&)`: the owned stream starts empty
and the external vector keeps its prior contents. -/
def mkWriter (v0 : List Nat) : BinaryWriter := ⟨[], v0⟩

/-- `BinaryWriter::flush` (also run by the destructor): the vector's
contents are replaced by the stream contents; the stream is untouched. -/
def BinaryWriter.flush (w : BinaryWriter) : BinaryWriter := ⟨w.buf, w.buf⟩

/-- One call to a `BinaryWriter` write method, with its argument. -/
inductive WriteOp where
  | u8 (v : Nat)
  | u16 (v : Nat)
  | u32 (v : Nat)
  | u64 (v : Nat)
  | i8 (v : Int)
  | i16 (v : Int)
  | i32 (v : Int)
  | i64 (v : Int)
  | f32 (bits : Nat)
  | f64 (bits : Nat)
  | boolean (b : Bool)
  | str (s : List Nat)
  | bytes (b : List Nat)
  | optionalStr (s : Option (List Nat))

/-- The bytes a write call sends to the stream. -/
def encodeOp : WriteOp → List Nat
  | .u8 v => write_u8 v
  | .u16 v => write_u16 v
  | .u32 v => write_u32 v
  | .u64 v => write_u64 v
  | .i8 v => write_i8 v
  | .i16 v => write_i16 v
  | .i32 v => write_i32 v
  | .i64 v => write_i64 v
  | .f32 bits => write_f32 bits
  | .f64 bits => write_f64 bits
  | .boolean b => write_bool b
  | .str s => write_string s
  | .bytes b => write_bytes b
  | .optionalStr s => write_optional_string s

/-- Execute one write call: every write method appends to the owned
stream (`stream_.write`) and never touches the external vector. -/
def applyOp (w : BinaryWriter) (op : WriteOp) : BinaryWriter :=
  ⟨w.buf ++ encodeOp op, w.vec⟩

/-- Execute a sequence of write calls. -/
def applyOps (w : BinaryWriter) (ops : List WriteOp) : BinaryWriter :=
  ops.foldl applyOp w

theorem applyOps_vec (w : BinaryWriter) (ops : List WriteOp) :
    (applyOps w ops).vec = w.vec := by
  induction ops generalizing w with
  | nil => rfl
  | cons op ops ih => exact ih (applyOp w op)

theorem applyOps_buf (w : BinaryWriter) (ops : List WriteOp) :
    (applyOps w ops).buf = w.buf ++ encodeEach encodeOp ops := by
  induction ops generalizing w with
  | nil => simp [applyOps, encodeEach]
  | cons op ops ih =>
    show (applyOps (applyOp w op) ops).buf = _
    rw [ih (applyOp w op)]
    simp [applyOp, encodeEach]

-- ============================================================
-- C10: writes buffer; flush publishes the concatenation
-- ============================================================

/-- C10: no write call modifies the backing vector; the vector's prior
contents are replaced only by `flush` (which the destructor also runs);
and flushing after a sequence of writes stores exactly the concatenation
of the writes' encodings, in write order. -/
theorem writer_flush_concat :
    (∀ (w : BinaryWriter) (op : WriteOp), (applyOp w op).vec = w.vec) ∧
    (∀ (v0 : List Nat) (ops : List WriteOp),
      (applyOps (mkWriter v0) ops).vec = v0) ∧
    (∀ (v0 : List Nat) (ops : List WriteOp),
      ((applyOps (mkWriter v0) ops).flush).vec = encodeEach encodeOp ops) :=
  ⟨fun w op => rfl,
    fun v0 ops => applyOps_vec (mkWriter v0) ops,
    fun v0 ops => by
      show (applyOps (mkWriter v0) ops).buf = _
      rw [applyOps_buf (mkWriter v0) ops]
      rfl⟩

-- ============================================================
-- Pack codec (generated @pack methods)
-- ============================================================

/-- Modelled from the spec: the generated `unpack` / `try_unpack` methods
of `@pack` embed types are emitted by the schema compiler and are not part
of the support-library source; only their tests ship with it.  Splitting a
character list on the type's single-character delimiter (no escaping
mechanism exists). -/
def splitChars (delim : Char) : List Char → List (List Char)
  | [] => [[]]
  | c :: rest =>
    match splitChars delim rest with
    | [] => [[]]
    | p :: ps => if c = delim then [] :: p :: ps else (c :: p) :: ps

/-- Parse the delimiter-split parts positionally with the per-field
parsers; fails when any part fails to parse (or the counts differ). -/
def parseFields : List (List Char → Option α) → List (List Char) →
    Option (List α)
  | [], [] => some []
  | f :: fs, p :: ps =>
    match f p, parseFields fs ps with
    | some v, some vs => some (v :: vs)
    | _, _ => none
  | _, _ => none

/-- Modelled from the spec: `unpack(string)` splits on the delimiter and
parses each part positionally into the corresponding field type; it is a
signaled failure (here `none`) if the part count does not equal the field
count or if any part fails to parse. -/
def unpack (fields : List (List Char → Option α)) (delim : Char)
    (s : List Char) : Option (List α) :=
  let parts := splitChars delim s
  if parts.length = fields.length then parseFields fields parts else none

/-- Modelled from the spec: `try_unpack` performs the same parse but
reports the failure condition as a boolean instead of signaling. -/
def try_unpack (fields : List (List Char → Option α)) (delim : Char)
    (s : List Char) : Bool :=
  let parts := splitChars delim s
  decide (parts.length = fields.length) && (parseFields fields parts).isSome

/-- Digit value of a decimal digit character. -/
def digitVal (c : Char) : Nat := c.toNat - 48

/-- Parse a non-empty all-digit character list as a natural number. -/
def parseNatChars (cs : List Char) : Option Nat :=
  if cs ≠ [] ∧ cs.all Char.isDigit then
    some (cs.foldl (fun acc c => acc * 10 + digitVal c) 0)
  else none

/-- Modelled from the spec: locale-independent minimal decimal form with
a `.` decimal point; the parsed value is represented exactly as a
rational. -/
def parseUnsignedDecimal (cs : List Char) : Option Rat :=
  match splitChars '.' cs with
  | [ip] => (parseNatChars ip).map (fun n => (n : Rat))
  | [ip, fp] =>
    match parseNatChars ip, parseNatChars fp with
    | some a, some b => some ((a : Rat) + (b : Rat) / (10 : Rat) ^ fp.length)
    | _, _ => none
  | _ => none

/-- Modelled from the spec: a float field parse, with an optional leading
minus sign. -/
def parseDecimal : List Char → Option Rat
  | '-' :: body => (parseUnsignedDecimal body).map (fun q => -q)
  | body => parseUnsignedDecimal body

-- ============================================================
-- C8: unpack failure conditions and try_unpack
-- ============================================================

theorem parseFields_length_ne (fields : List (List Char → Option α))
    (parts : List (List Char)) (h : parts.length ≠ fields.length) :
    parseFields fields parts = none := by
  induction fields generalizing parts with
  | nil =>
    cases parts with
    | nil => simp at h
    | cons p ps => rfl
  | cons f fs ih =>
    cases parts with
    | nil => rfl
    | cons p ps =>
      show (match f p, parseFields fs ps with
        | some v, some vs => some (v :: vs)
        | _, _ => none) = none
      rw [ih ps (by simpa using h)]
      cases f p <;> rfl

/-- C8: `unpack` fails exactly when the delimiter-split part count does
not equal the field count or some part fails to parse as its field's
type, and `try_unpack` reports precisely the same condition as a boolean:
it is `true` exactly when `unpack` succeeds. -/
theorem pack_unpack_failure :
    (∀ (α : Type) (fields : List (List Char → Option α)) (delim : Char)
      (s : List Char),
      try_unpack fields delim s = (unpack fields delim s).isSome) ∧
    (∀ (α : Type) (fields : List (List Char → Option α)) (delim : Char)
      (s : List Char), (splitChars delim s).length ≠ fields.length →
      unpack fields delim s = none ∧ try_unpack fields delim s = false) ∧
    (∀ (α : Type) (fields : List (List Char → Option α)) (delim : Char)
      (s : List Char), parseFields fields (splitChars delim s) = none →
      unpack fields delim s = none ∧ try_unpack fields delim s = false) := by
  refine ⟨fun α fields delim s => ?_, fun α fields delim s h => ?_,
    fun α fields delim s h => ?_⟩
  · unfold unpack try_unpack
    by_cases h : (splitChars delim s).length = fields.length
    · simp [h]
    · simp [h, parseFields_length_ne fields (splitChars delim s) h]
  · unfold unpack try_unpack
    simp [h]
  · unfold unpack try_unpack
    by_cases hl : (splitChars delim s).length = fields.length <;>
      simp [hl, h]

/-- C8 witness: on a two-float-field `@pack` type with delimiter `;`
(the `Position` embed of the tests), `try_unpack "invalid"` fails (one
part against two fields), while `try_unpack "1.0;2.0"` succeeds and
`unpack` yields the values `1` and `2`. -/
theorem pack_unpack_failure_witness :
    (unpack [parseDecimal, parseDecimal] ';' "invalid".toList = none ∧
      try_unpack [parseDecimal, parseDecimal] ';' "invalid".toList = false) ∧
    try_unpack [parseDecimal, parseDecimal] ';' "1.0;2.0".toList = true ∧
    unpack [parseDecimal, parseDecimal] ';' "1.0;2.0".toList =
      some [(1 : Rat), 2] :=
  ⟨pack_unpack_failure.2.1 Rat [parseDecimal, parseDecimal] ';'
      "invalid".toList (by decide),
    by
      rw [pack_unpack_failure.1 Rat [parseDecimal, parseDecimal] ';'
        "1.0;2.0".toList]
      decide,
    by
      have hv : unpack [parseDecimal, parseDecimal] ';' "1.0;2.0".toList =
          some [((1 : Nat) : Rat) + ((0 : Nat) : Rat) / (10 : Rat) ^ (1 : Nat),
            ((2 : Nat) : Rat) + ((0 : Nat) : Rat) / (10 : Rat) ^ (1 : Nat)] :=
        rfl
      rw [hv]
      norm_num⟩
